import Mathlib

/-!
Shallow embedding of the roll-dice repository (Go sources under
internal/games/shutthebox.go and internal/probgen/probgen.go,
internal/probgen/diceroll.go), together with theorems checking the
natural-language specification against it.

Conventions of the embedding:
* Go `int` values that are always non-negative in the modelled code
  (bitsets, slot indices, targets, digit sums) are embedded as `Nat`;
  values that the claims quantify over signed ranges (event counts,
  dice types) are embedded as `Int`.
* Go functions that mutate through a pointer are embedded as functions
  returning the new value of the pointed-to cell alongside their result.
* Go `error` results are embedded as `Except String` or `Option String`
  carrying the message text built by the Go code.
* The stateful pseudo random source `func(int) int` is embedded as a
  stream `rolls : Nat → Nat`, where `rolls i` is the value returned by
  the i-th call of the source.
* Console printing functions (Run, printGameState, ...) are not part of
  the embedding; only the value-level logic the claims are about is.
-/

/-! ## shutthebox.go: bitset primitives -/

/-- Go constant `SizeBox = 9`: total number of slots. -/
def SizeBox : Nat := 9

/-- Go constant `OpenBox = (1 << SizeBox) - 1`: initial open box. -/
def OpenBox : Nat := (1 <<< SizeBox) - 1

/-- Go constant `ShutBox = 0`: fully shut box. -/
def ShutBox : Nat := 0

/-- Go constant `EmptySlot = "_"`. -/
def EmptySlot : String := "_"

/-- Go `IsBitSet(bitset, bit) = bitset & (1 << bit) != 0`. -/
def IsBitSet (bitset bit : Nat) : Bool :=
  bitset &&& (1 <<< bit) != 0

/-- Go `SetBitEmpty(bitset, bit)`: `*bitset = *bitset &^ (1 << bit)`.
The Go AND-NOT `x &^ m` equals `x ^ (x & m)` on non-negative values;
the embedding returns the new cell value. -/
def SetBitEmpty (bitset bit : Nat) : Nat :=
  bitset ^^^ (bitset &&& (1 <<< bit))

/-- Go `GetSlotValue(slot) = slot + 1`. -/
def GetSlotValue (slot : Nat) : Nat := slot + 1

/-- Go `GetValueSlot(value) = value - 1`. All call sites pass value ≥ 1,
so the truncated `Nat` subtraction agrees with Go. -/
def GetValueSlot (value : Nat) : Nat := value - 1

/-- Go `IsBoxEmpty(gstate) = gstate == ShutBox`. -/
def IsBoxEmpty (gstate : Nat) : Bool := gstate == ShutBox

/-! ## shutthebox.go: TargetSumExists

The Go function mutates a bitset through a pointer and, inside its loop,
rebinds the local pointer to the address of the local copy `orig_bitset`
(`bitset = &orig_bitset`); from then on writes go to that local copy and
the caller-visible cell is no longer updated. The embedding makes the two
cells explicit: `callerVal` is the cell the incoming pointer refers to,
`origVal` the local copy, and `pIsCaller` records which one the local
pointer currently addresses. Each embedded call returns
(boolean result, final value of the cell the incoming pointer refers to).

The recursion of the Go function strictly decreases `target` (every
recursive call has target `low < target` or `high < target`), so a fuel
of `target + 1` makes the embedding total without cutting any execution
short; `loopPairs` unrolls the `for low_v < high_v` loop into the list of
(low, high) pairs it visits, where any iteration bound ≥ high suffices. -/

/-- The (low, high) pairs visited by the Go loop
`for low_v < high_v { ...; low_v++; high_v-- }`. -/
def loopPairs : Nat → Nat → Nat → List (Nat × Nat)
  | 0, _, _ => []
  | n + 1, low, high =>
    if low < high then (low, high) :: loopPairs n (low + 1) (high - 1) else []

/-- One pass of the Go loop body of `TargetSumExists` over the remaining
(low, high) pairs. `tse` is the recursive call at one fuel level lower. -/
def TSEloop (tse : Nat → Nat → Bool × Nat) :
    List (Nat × Nat) → Nat → Nat → Bool → Bool × Nat
  | [], callerVal, _, _ => (false, callerVal)
  | (low, high) :: rest, callerVal, origVal, pIsCaller =>
    let cell := if pIsCaller then callerVal else origVal
    let r1 := tse cell low
    if r1.1 then
      let r2 := tse r1.2 high
      if r2.1 then
        (true, if pIsCaller then r2.2 else callerVal)
      else
        TSEloop tse rest (if pIsCaller then r2.2 else callerVal)
          (if pIsCaller then origVal else r2.2) false
    else
      TSEloop tse rest (if pIsCaller then r1.2 else callerVal)
        (if pIsCaller then origVal else r1.2) false

/-- Fueled body of Go `TargetSumExists(bitset *int, target int) bool`. -/
def TSE : Nat → Nat → Nat → Bool × Nat
  | 0, bitset, _ => (false, bitset)
  | f + 1, bitset, target =>
    if IsBitSet bitset (GetValueSlot target) then
      (true, SetBitEmpty bitset (GetValueSlot target))
    else
      TSEloop (fun b t => TSE f b t) (loopPairs target 1 (target - 1)) bitset bitset true

/-- Go `TargetSumExists(&bitset, target)`: returns the boolean result and
the final value of the caller-supplied bitset cell. Fuel `target + 1` is
never exhausted because the recursion strictly decreases `target`. -/
def TargetSumExists (bitset target : Nat) : Bool × Nat :=
  TSE (target + 1) bitset target

/-! ## Specification-side definitions for the subset-sum claim (C1).
These two follow the words of the spec ("some subset of the
currently-open slot values sums exactly to target"), to be compared with
the `TargetSumExists` embedding above. -/

/-- The values (slot index + 1) of the slots currently open in `s`. -/
def openSlotValues (s : Nat) : List Nat :=
  ((List.range SizeBox).filter (fun i => IsBitSet s i)).map (fun i => i + 1)

/-- Decidable subset-sum existence: some sublist of the open slot values
sums to `t`. -/
def subsetSumB (s t : Nat) : Bool :=
  (openSlotValues s).sublists.any (fun l => l.sum == t)

/-! ## shutthebox.go: move validation and game state update -/

/-- Go constant `ErrInvDigit`. -/
def ErrInvDigit : String := "invalid digit input not in range [1,9]"

/-- Message built by `fmt.Errorf("slot %d is already closed. Please try again", d)`. -/
def errSlotClosed (d : Nat) : String :=
  "slot " ++ toString d ++ " is already closed. Please try again"

/-- Message built by `fmt.Errorf(ErrNotEqTarget, combined, target)` where
`ErrNotEqTarget = "input \x27%d\x27 does not add up to target \x27%d\x27"`. -/
def errNotEqTarget (combined target : Nat) : String :=
  "input \x27" ++ toString combined ++ "\x27 does not add up to target \x27"
    ++ toString target ++ "\x27"

/-- Go `strconv.Atoi(string(d))` on a single rune: succeeds exactly on the
ASCII digits, returning the digit value. -/
def atoiChar (c : Char) : Option Nat :=
  if c.isDigit then some (c.toNat - 48) else none

/-- The `for _, d := range update` loop of Go `processProposedUpdate`,
threading the accumulated digit sum and the local working bitset. -/
def processUpdateLoop : Nat → Nat → List Char → Except String (Nat × Nat)
  | combined, gstate, [] => Except.ok (combined, gstate)
  | combined, gstate, c :: rest =>
    match atoiChar c with
    | none => Except.error ErrInvDigit
    | some digit_i =>
      if digit_i < 1 then Except.error ErrInvDigit
      else
        let digit_slot := GetValueSlot digit_i
        if IsBitSet gstate digit_slot then
          processUpdateLoop (combined + digit_i) (SetBitEmpty gstate digit_slot) rest
        else
          Except.error (errSlotClosed digit_i)

/-- Go `processProposedUpdate(gstate int, update string, target int) (int, error)`.
The `-1` returned by Go on error paths is ignored by the caller, so the
embedding returns only the error there. -/
def processProposedUpdate (gstate : Nat) (update : String) (target : Nat) :
    Except String Nat :=
  if update = "" then Except.error ErrInvDigit
  else
    match processUpdateLoop 0 gstate update.toList with
    | Except.error e => Except.error e
    | Except.ok (combinedDigits, g) =>
      if combinedDigits ≠ target then Except.error (errNotEqTarget combinedDigits target)
      else Except.ok g

/-- Go struct `ShutTheBox`. -/
structure ShutTheBox where
  gameState : Nat
  players : List String
  player_i : Nat
deriving DecidableEq, Repr

/-- Go `NewShutBox(allPlayers)`. -/
def NewShutBox (allPlayers : List String) : ShutTheBox :=
  { gameState := OpenBox, players := allPlayers, player_i := 0 }

/-- Go `nextPlayer`: `player_i = (player_i + 1) % len(players)`. -/
def nextPlayer (b : ShutTheBox) : ShutTheBox :=
  { b with player_i := (b.player_i + 1) % b.players.length }

/-- Go `resetBox`. -/
def resetBox (b : ShutTheBox) : ShutTheBox :=
  { b with gameState := OpenBox }

/-- Go `nextTurn`. -/
def nextTurn (b : ShutTheBox) : ShutTheBox :=
  nextPlayer (resetBox b)

/-- Go `updateGameState`: commits the proposed update only when no error
was encountered, otherwise leaves the receiver unchanged. Returns the new
receiver and the error. -/
def updateGameState (b : ShutTheBox) (update : String) (target : Nat) :
    ShutTheBox × Option String :=
  match processProposedUpdate b.gameState update target with
  | Except.ok proposedUpdate => ({ b with gameState := proposedUpdate }, none)
  | Except.error e => (b, some e)

/-! ## shutthebox.go: display string round trip -/

/-- Go `GetSlotForPrint`: `fmt.Sprintf("[%s]", slot_v)` where `slot_v` is
the slot value when open and `EmptySlot` otherwise. -/
def GetSlotForPrint (gstate slot : Nat) : String :=
  let slot_v := if IsBitSet gstate slot then toString (GetSlotValue slot) else EmptySlot
  "[" ++ slot_v ++ "]"

/-- Go `AssembleSlotsToDisplay`: concatenates the 9 printed slots. -/
def AssembleSlotsToDisplay (gstate : Nat) : String :=
  (List.range SizeBox).foldl (fun acc i => acc ++ GetSlotForPrint gstate i) ""

/-- Go `ConvertSlotToBit`: reads the 3-character group `gslots[slot*3 : slot*3+3]`
and compares it with `"[_]"`. Go slicing is embedded as drop/take on the
character list (all characters involved are ASCII, one byte each). -/
def ConvertSlotToBit (gslots : String) (slot : Nat) : Nat :=
  if (gslots.toList.drop (slot * 3)).take 3 = ("[" ++ EmptySlot ++ "]").toList then 0
  else 1

/-- Go `ConvertSlotsToGameState`: ors the slot bits back together. -/
def ConvertSlotsToGameState (gslots : String) : Nat :=
  (List.range SizeBox).foldl (fun gstate i => gstate ||| (ConvertSlotToBit gslots i <<< i)) 0

/-! ## probgen.go -/

/-- Go constant `ErrInvalidEvents`. -/
def ErrInvalidEvents : String :=
  "invalid number of events: must be more than one event"

/-- Go constant `ErrInvalidPossibilities`. -/
def ErrInvalidPossibilities : String :=
  "invalid number of possibilities: must have at least one possible outcome"

/-- Go `produceEvent`: the list of labels sent on the channel, in order.
The loop `for i := 0; i < numEvents; i++` runs `numEvents.toNat` times
(zero times for non-positive counts). `outcomes[index]` is embedded with
`getD`; every claim using this supplies indices below `outcomes.length`,
where `getD` agrees with Go indexing. -/
def produceEvent (numEvents : Int) (outcomes : List String) (rolls : Nat → Nat) :
    List String :=
  (List.range numEvents.toNat).map (fun i => outcomes.getD (rolls i) "")

/-- The Go map update `results[event]++` on an association-list model of
`map[string]int`: bump the entry if present, otherwise insert with count 1. -/
def mapIncrement : List (String × Nat) → String → List (String × Nat)
  | [], event => [(event, 1)]
  | (k, v) :: rest, event =>
    if k = event then (k, v + 1) :: rest else (k, v) :: mapIncrement rest event

/-- Go `consumeEvents`: drains the channel (here: the produced list, in
production order) into the frequency table. -/
def consumeEvents (events : List String) : List (String × Nat) :=
  events.foldl mapIncrement []

/-- Go `computeProbability`: produce all events and consume them. The Go
version runs `produceEvent` in a goroutine handing each event over an
unbuffered channel to `consumeEvents`; the embedding composes the two
sequentially, which yields the same table. -/
def computeProbability (numEvents : Int) (outcomes : List String) (rolls : Nat → Nat) :
    List (String × Nat) :=
  consumeEvents (produceEvent numEvents outcomes rolls)

/-- Go `GenerateProbabilisticEvent(events int, possibilities []string)`.
Checks only that `possibilities` is non-empty; performs no check on
`events`. -/
def GenerateProbabilisticEvent (events : Int) (possibilities : List String)
    (rolls : Nat → Nat) : Except String (List (String × Nat)) :=
  if possibilities.length < 1 then Except.error ErrInvalidPossibilities
  else Except.ok (computeProbability events possibilities rolls)

/-- Go `validate(probEventType)`: the generic event-count check, embedded
over the value returned by `getNumEvents()`. -/
def validate (numEvents : Int) : Bool × Option String :=
  if numEvents < 1 then (false, some ErrInvalidEvents) else (true, none)

/-! ## diceroll.go -/

/-- Go `validDiceType(dType)`: switch on {D4, D6, D10, D12, D20}. -/
def validDiceType (dType : Int) : Bool :=
  dType == 4 || dType == 6 || dType == 10 || dType == 12 || dType == 20

/-! ## Helper lemmas -/

/-- The predicate `IsBitSet` is `Nat.testBit`. -/
theorem IsBitSet_eq_testBit (g i : Nat) : IsBitSet g i = g.testBit i := by
  unfold IsBitSet
  rw [Nat.shiftLeft_eq, one_mul, Nat.and_two_pow]
  cases h : g.testBit i with
  | false => simp
  | true => simp [(Nat.two_pow_pos i).ne']

/-- Bit view of `SetBitEmpty`: bit `b` is cleared, all other bits kept. -/
theorem IsBitSet_SetBitEmpty (g b i : Nat) :
    IsBitSet (SetBitEmpty g b) i = (IsBitSet g i && !(i == b)) := by
  rw [IsBitSet_eq_testBit, IsBitSet_eq_testBit]
  unfold SetBitEmpty
  rw [Nat.shiftLeft_eq, one_mul]
  simp only [Nat.testBit_xor, Nat.testBit_and, Nat.testBit_two_pow]
  by_cases hbi : b = i
  · subst hbi
    cases h : g.testBit b <;> simp
  · have h1 : decide (b = i) = false := by simp [hbi]
    have h2 : (i == b) = false := beq_eq_false_iff_ne.mpr (fun hh => hbi hh.symm)
    rw [h1, h2]
    cases h : g.testBit i <;> simp

/-- Bridge between the propositional subset-sum statement and the
decidable `subsetSumB`. -/
theorem exists_sublist_sum_iff (L : List Nat) (t : Nat) :
    (∃ l : List Nat, List.Sublist l L ∧ l.sum = t) ↔
      L.sublists.any (fun l => l.sum == t) = true := by
  rw [List.any_eq_true]
  constructor
  · rintro ⟨l, hsub, hsum⟩
    exact ⟨l, List.mem_sublists.mpr hsub, by simp [hsum]⟩
  · rintro ⟨l, hmem, hsum⟩
    exact ⟨l, List.mem_sublists.mp hmem, by simpa using hsum⟩

set_option maxRecDepth 1000000 in
set_option maxHeartbeats 4000000 in
/-- The exhaustive table: on every 9-bit state and every dice target the
boolean result of `TargetSumExists` coincides with subset-sum existence. -/
theorem tse_matches_subsetSumB :
    ∀ s < 512, ∀ k < 11, (TargetSumExists s (k + 2)).1 = subsetSumB s (k + 2) := by
  decide

/-! ## Claims -/

/-- C1: for every 9-bit open-slot bitset and every target in [2,12],
`TargetSumExists` returns true iff some subset of the currently-open slot
values sums exactly to the target; on the fully-open board it returns true
for every target in [2,12], and with only slot 6 open (bitset 32) it
returns true exactly for target 6. -/
theorem targetSumExists_iff_subset_sum :
    (∀ s < 512, ∀ t : Nat, 2 ≤ t → t ≤ 12 →
      ((TargetSumExists s t).1 = true ↔
        ∃ l : List Nat, List.Sublist l (openSlotValues s) ∧ l.sum = t)) ∧
    (∀ t : Nat, 2 ≤ t → t ≤ 12 → (TargetSumExists OpenBox t).1 = true) ∧
    (∀ t : Nat, 2 ≤ t → t ≤ 12 → ((TargetSumExists 32 t).1 = true ↔ t = 6)) := by
  refine ⟨?_, ?_, ?_⟩
  · intro s hs t h2 h12
    have hk := tse_matches_subsetSumB s hs (t - 2) (by omega)
    rw [show t - 2 + 2 = t from by omega] at hk
    rw [hk]
    exact (exists_sublist_sum_iff (openSlotValues s) t).symm
  · intro t h2 h12
    interval_cases t <;> decide
  · intro t h2 h12
    interval_cases t <;> decide

/-- C1 witness: the theorem applied at bitset 32 (only slot 6 open) with
target 6, at the fully-open board with target 12, and at bitset 32 with
target 7. -/
theorem targetSumExists_iff_subset_sum_witness :
    ((TargetSumExists 32 6).1 = true ↔
      ∃ l : List Nat, List.Sublist l (openSlotValues 32) ∧ l.sum = 6) ∧
    (TargetSumExists OpenBox 12).1 = true ∧
    ((TargetSumExists 32 7).1 = true ↔ 7 = 6) :=
  ⟨targetSumExists_iff_subset_sum.1 32 (by decide) 6 (by decide) (by decide),
   targetSumExists_iff_subset_sum.2.1 12 (by decide) (by decide),
   targetSumExists_iff_subset_sum.2.2 7 (by decide) (by decide)⟩

/-- C2: evaluation at the failing input. With only slot 1 open (bitset 1)
and target 3, the call returns false but leaves the caller-supplied cell
at 0: the speculative clearing of slot 1 during the failed (1, 2) attempt
is never rolled back, because the Go statement rebinding the pointer to
the local copy does not write the saved value back through the original
pointer. The claimed restoration would require the final cell value 1. -/
theorem targetSumExists_clobbers_caller_cell :
    TargetSumExists 1 3 = (false, 0) ∧ (0 : Nat) ≠ 1 := by
  decide

set_option maxRecDepth 1000000 in
/-- C7: the 9-slot display string round-trips back to the same bitset. -/
theorem convertSlots_assembleSlots_roundtrip :
    ∀ s < 512, ConvertSlotsToGameState (AssembleSlotsToDisplay s) = s := by
  decide

/-- C7 witness: the round trip at the fully-open state 511. -/
theorem convertSlots_assembleSlots_roundtrip_witness :
    ConvertSlotsToGameState (AssembleSlotsToDisplay 511) = 511 :=
  convertSlots_assembleSlots_roundtrip 511 (by decide)

/-- C8: `validDiceType` accepts exactly 4, 6, 10, 12, 20; in particular it
rejects 3, 5, 21, 0 and every negative count. -/
theorem validDiceType_iff :
    (∀ n : Int, validDiceType n = true ↔ (n = 4 ∨ n = 6 ∨ n = 10 ∨ n = 12 ∨ n = 20)) ∧
    validDiceType 3 = false ∧ validDiceType 5 = false ∧ validDiceType 21 = false ∧
    validDiceType 0 = false ∧ (∀ n : Int, n < 0 → validDiceType n = false) := by
  refine ⟨?_, by decide, by decide, by decide, by decide, ?_⟩
  · intro n
    simp [validDiceType, or_assoc]
  · intro n hn
    simp only [validDiceType, Bool.or_eq_false_iff, beq_eq_false_iff_ne, ne_eq]
    omega

/-- C8 witness: the characterization at 6 and the negative case at -5. -/
theorem validDiceType_iff_witness :
    (validDiceType 6 = true ↔
      ((6 : Int) = 4 ∨ (6 : Int) = 6 ∨ (6 : Int) = 10 ∨ (6 : Int) = 12 ∨ (6 : Int) = 20)) ∧
    validDiceType (-5) = false :=
  ⟨validDiceType_iff.1 6, validDiceType_iff.2.2.2.2.2 (-5) (by decide)⟩

/-- C9: `nextPlayer` advances the index to (i + 1) mod n, the index stays
in [0, n) whenever there is at least one player, and with 4 players
starting at index 0 four advances return to index 0. -/
theorem nextPlayer_rotation :
    (∀ b : ShutTheBox, 1 ≤ b.players.length →
      (nextPlayer b).player_i = (b.player_i + 1) % b.players.length ∧
      (nextPlayer b).player_i < b.players.length) ∧
    (∀ b : ShutTheBox, b.players.length = 4 → b.player_i = 0 →
      (nextPlayer (nextPlayer (nextPlayer (nextPlayer b)))).player_i = 0) := by
  constructor
  · intro b hb
    exact ⟨rfl, Nat.mod_lt _ (by omega)⟩
  · intro b h4 h0
    simp [nextPlayer, h4, h0]

/-- C9 witness: both parts at a fresh 4-player box. -/
theorem nextPlayer_rotation_witness :
    ((nextPlayer (NewShutBox ["p1", "p2", "p3", "p4"])).player_i =
        ((NewShutBox ["p1", "p2", "p3", "p4"]).player_i + 1) %
          (NewShutBox ["p1", "p2", "p3", "p4"]).players.length ∧
      (nextPlayer (NewShutBox ["p1", "p2", "p3", "p4"])).player_i <
        (NewShutBox ["p1", "p2", "p3", "p4"]).players.length) ∧
    (nextPlayer (nextPlayer (nextPlayer (nextPlayer
      (NewShutBox ["p1", "p2", "p3", "p4"]))))).player_i = 0 :=
  ⟨nextPlayer_rotation.1 (NewShutBox ["p1", "p2", "p3", "p4"]) (by decide),
   nextPlayer_rotation.2 (NewShutBox ["p1", "p2", "p3", "p4"]) (by decide) (by decide)⟩

/-- On success, the move-validation loop clears exactly the slots named by
the parsed digits of the move, and each named slot was open at entry. -/
theorem processUpdateLoop_ok_spec :
    ∀ (l : List Char) (combined gstate combined2 g2 : Nat),
      processUpdateLoop combined gstate l = Except.ok (combined2, g2) →
      (∀ i : Nat, IsBitSet g2 i =
        (IsBitSet gstate i && !((l.filterMap atoiChar).contains (i + 1)))) ∧
      (∀ i : Nat, (l.filterMap atoiChar).contains (i + 1) = true →
        IsBitSet gstate i = true) := by
  intro l
  induction l with
  | nil =>
    intro combined gstate combined2 g2 h
    simp only [processUpdateLoop, Except.ok.injEq, Prod.mk.injEq] at h
    obtain ⟨h1, h2⟩ := h
    subst h2
    simp [List.filterMap]
  | cons c rest ih =>
    intro combined gstate combined2 g2 h
    cases ha : atoiChar c with
    | none => simp [processUpdateLoop, ha] at h
    | some d =>
      simp only [processUpdateLoop, ha] at h
      split at h
      · exact absurd h (by simp)
      · rename_i hd
        have hd1 : 1 ≤ d := by omega
        split at h
        · rename_i hbit
          obtain ⟨ihA, ihB⟩ := ih _ _ _ _ h
          have hfm : (c :: rest).filterMap atoiChar = d :: rest.filterMap atoiChar := by
            simp [List.filterMap_cons, ha]
          have hbeq : ∀ i : Nat, (i == GetValueSlot d) = (i + 1 == d) := by
            intro i
            rw [Bool.eq_iff_iff]
            simp only [beq_iff_eq, GetValueSlot]
            omega
          constructor
          · intro i
            rw [ihA i, IsBitSet_SetBitEmpty, hfm, List.contains_cons, hbeq i,
              Bool.and_assoc, ← Bool.not_or]
          · intro i hcont
            rw [hfm, List.contains_cons] at hcont
            cases hid : (i + 1 == d) with
            | true =>
              have : i = GetValueSlot d := by
                have := beq_iff_eq.mp hid
                simp only [GetValueSlot]
                omega
              rw [this]
              exact hbit
            | false =>
              rw [hid, Bool.false_or] at hcont
              have := ihB i hcont
              rw [IsBitSet_SetBitEmpty] at this
              simp only [Bool.and_eq_true] at this
              exact this.1
        · exact absurd h (by simp)

/-- A move whose characters all parse as digits in [1,9] but which names
some slot twice always runs into the already-closed check. -/
theorem processUpdateLoop_duplicate_error :
    ∀ (l : List Char) (combined gstate : Nat),
      (∀ c ∈ l, atoiChar c ≠ none ∧ atoiChar c ≠ some 0) →
      ((∃ c ∈ l, ∃ d, atoiChar c = some d ∧ IsBitSet gstate (GetValueSlot d) = false) ∨
        ¬ l.Nodup) →
      ∃ d, processUpdateLoop combined gstate l = Except.error (errSlotClosed d) := by
  intro l
  induction l with
  | nil =>
    intro combined gstate hall hbad
    rcases hbad with ⟨c, hc, _⟩ | hnd
    · exact absurd hc (List.not_mem_nil c)
    · exact absurd List.nodup_nil hnd
  | cons c rest ih =>
    intro combined gstate hall hbad
    obtain ⟨hne, hne0⟩ := hall c (List.mem_cons_self c rest)
    cases ha : atoiChar c with
    | none => exact absurd ha hne
    | some d =>
      have hd1 : 1 ≤ d := by
        have : d ≠ 0 := fun h0 => hne0 (h0 ▸ ha)
        omega
      cases hbit : IsBitSet gstate (GetValueSlot d) with
      | false =>
        refine ⟨d, ?_⟩
        simp [processUpdateLoop, ha, hbit, Nat.not_lt.mpr hd1]
      | true =>
        have hstep : processUpdateLoop combined gstate (c :: rest) =
            processUpdateLoop (combined + d) (SetBitEmpty gstate (GetValueSlot d)) rest := by
          simp [processUpdateLoop, ha, hbit, Nat.not_lt.mpr hd1]
        rw [hstep]
        apply ih
        · intro x hx
          exact hall x (List.mem_cons_of_mem c hx)
        · rcases hbad with ⟨c2, hc2mem, d2, hd2, hd2bit⟩ | hnd
          · rcases List.mem_cons.mp hc2mem with rfl | hc2rest
            · rw [ha] at hd2
              injection hd2 with hdd
              subst hdd
              rw [hbit] at hd2bit
              cases hd2bit
            · left
              refine ⟨c2, hc2rest, d2, hd2, ?_⟩
              rw [IsBitSet_SetBitEmpty, hd2bit, Bool.false_and]
          · rw [List.nodup_cons] at hnd
            by_cases hcr : c ∈ rest
            · left
              refine ⟨c, hcr, d, ha, ?_⟩
              rw [IsBitSet_SetBitEmpty]
              simp
            · right
              intro hndrest
              exact hnd ⟨hcr, hndrest⟩

/-- C3: `updateGameState` either succeeds, producing a state in which
exactly the slots named by the digits of the move are cleared and nothing
else changes, or reports an error and leaves the state untouched; on the
fully-open board, move "45" with target 9 succeeds with new state 487,
which is OpenBox = 511 with exactly bits 3 and 4 (slots 4 and 5) cleared,
while move "45" with target 8 errors, so the caller leaves the board
unchanged. -/
theorem updateGameState_exact_clear :
    (∀ (b : ShutTheBox) (update : String) (target : Nat),
      ((updateGameState b update target).2.isSome →
        (updateGameState b update target).1 = b) ∧
      ((updateGameState b update target).2 = none →
        (updateGameState b update target).1.players = b.players ∧
        (updateGameState b update target).1.player_i = b.player_i ∧
        (∀ i : Nat,
          IsBitSet (updateGameState b update target).1.gameState i =
            (IsBitSet b.gameState i &&
              !((update.toList.filterMap atoiChar).contains (i + 1)))) ∧
        (∀ i : Nat, (update.toList.filterMap atoiChar).contains (i + 1) = true →
          IsBitSet b.gameState i = true))) ∧
    (processProposedUpdate OpenBox "45" 9 = Except.ok 487) ∧
    (processProposedUpdate OpenBox "45" 8 = Except.error (errNotEqTarget 9 8)) := by
  refine ⟨?_, ?_, ?_⟩
  · intro b update target
    constructor
    · intro herr
      unfold updateGameState at herr ⊢
      cases h : processProposedUpdate b.gameState update target with
      | ok g => rw [h] at herr; simp at herr
      | error e => rfl
    · intro hok
      unfold updateGameState at hok ⊢
      cases h : processProposedUpdate b.gameState update target with
      | error e => rw [h] at hok; simp at hok
      | ok g =>
        unfold processProposedUpdate at h
        by_cases hemp : update = ""
        · rw [if_pos hemp] at h; cases h
        · rw [if_neg hemp] at h
          cases hl : processUpdateLoop 0 b.gameState update.toList with
          | error e => rw [hl] at h; cases h
          | ok p =>
            obtain ⟨cd, g0⟩ := p
            rw [hl] at h
            change (if cd ≠ target then Except.error (errNotEqTarget cd target)
              else Except.ok g0) = Except.ok g at h
            split at h
            · cases h
            · injection h with hg
              subst hg
              obtain ⟨hA, hB⟩ :=
                processUpdateLoop_ok_spec update.toList 0 b.gameState cd g0 hl
              exact ⟨rfl, rfl, hA, hB⟩
  · rfl
  · rfl

/-- C3 witness: the theorem applied at a fresh one-player box, with the
error conjunct discharged at move "45" against target 8 and the success
conjunct at move "45" against target 9. -/
theorem updateGameState_exact_clear_witness :
    ((updateGameState (ShutTheBox.mk OpenBox ["p1"] 0) "45" 8).1 =
      ShutTheBox.mk OpenBox ["p1"] 0) ∧
    ((updateGameState (ShutTheBox.mk OpenBox ["p1"] 0) "45" 9).1.players = ["p1"] ∧
      (updateGameState (ShutTheBox.mk OpenBox ["p1"] 0) "45" 9).1.player_i = 0 ∧
      (∀ i : Nat,
        IsBitSet (updateGameState (ShutTheBox.mk OpenBox ["p1"] 0) "45" 9).1.gameState i =
          (IsBitSet OpenBox i && !(("45".toList.filterMap atoiChar).contains (i + 1)))) ∧
      (∀ i : Nat, ("45".toList.filterMap atoiChar).contains (i + 1) = true →
        IsBitSet OpenBox i = true)) :=
  ⟨(updateGameState_exact_clear.1 (ShutTheBox.mk OpenBox ["p1"] 0) "45" 8).1 (by decide),
   (updateGameState_exact_clear.1 (ShutTheBox.mk OpenBox ["p1"] 0) "45" 9).2 (by decide)⟩

/-- C10: a move string whose characters all parse as digits in [1,9] but
which names the same slot twice is always rejected with the
slot-already-closed error, whatever the game state and target, and the
real game state is left unchanged: the first occurrence clears the slot in
the local working copy, so the second occurrence finds it closed. -/
theorem duplicate_digit_move_rejected :
    ∀ (b : ShutTheBox) (target : Nat) (l : List Char),
      (∀ c ∈ l, atoiChar c ≠ none ∧ atoiChar c ≠ some 0) →
      ¬ l.Nodup →
      ∃ d, processProposedUpdate b.gameState (String.mk l) target =
            Except.error (errSlotClosed d) ∧
          updateGameState b (String.mk l) target = (b, some (errSlotClosed d)) := by
  intro b target l hall hdup
  obtain ⟨d, hloop⟩ := processUpdateLoop_duplicate_error l 0 b.gameState hall (Or.inr hdup)
  have hne : (String.mk l) ≠ "" := by
    intro hs
    have hdata : l = [] := by
      have h2 : ("" : String) = String.mk [] := rfl
      rw [h2] at hs
      injection hs
    exact hdup (hdata ▸ List.nodup_nil)
  have hppu : processProposedUpdate b.gameState (String.mk l) target =
      Except.error (errSlotClosed d) := by
    unfold processProposedUpdate
    rw [if_neg hne]
    have htl : (String.mk l).toList = l := rfl
    rw [htl, hloop]
  refine ⟨d, hppu, ?_⟩
  unfold updateGameState
  rw [hppu]

/-- C10 witness: move "33" with target 6 (the repeated digits sum exactly
to the target) on the fully-open board. -/
theorem duplicate_digit_move_rejected_witness :
    ∃ d, processProposedUpdate OpenBox (String.mk ['3', '3']) 6 =
          Except.error (errSlotClosed d) ∧
        updateGameState (ShutTheBox.mk OpenBox ["p1"] 0) (String.mk ['3', '3']) 6 =
          (ShutTheBox.mk OpenBox ["p1"] 0, some (errSlotClosed d)) :=
  duplicate_digit_move_rejected (ShutTheBox.mk OpenBox ["p1"] 0) 6 ['3', '3']
    (by decide) (by decide)

/-! ## probgen helper lemmas -/

/-- Bumping one event adds one to the total count of the table. -/
theorem mapIncrement_sum (t : List (String × Nat)) (e : String) :
    ((mapIncrement t e).map Prod.snd).sum = (t.map Prod.snd).sum + 1 := by
  induction t with
  | nil => simp [mapIncrement]
  | cons kv rest ih =>
    obtain ⟨k, v⟩ := kv
    by_cases hk : k = e
    · simp only [mapIncrement, if_pos hk, List.map_cons, List.sum_cons]
      omega
    · simp only [mapIncrement, if_neg hk, List.map_cons, List.sum_cons, ih]
      omega

/-- Bumping one event introduces at most the key of that event. -/
theorem mapIncrement_keys (t : List (String × Nat)) (e : String) :
    ∀ kv ∈ mapIncrement t e, kv.1 = e ∨ kv.1 ∈ t.map Prod.fst := by
  induction t with
  | nil =>
    intro kv hkv
    simp only [mapIncrement, List.mem_singleton] at hkv
    subst hkv
    left
    rfl
  | cons p rest ih =>
    obtain ⟨k, v⟩ := p
    intro kv hkv
    by_cases hk : k = e
    · rw [mapIncrement, if_pos hk] at hkv
      rcases List.mem_cons.mp hkv with rfl | hmem
      · left; exact hk
      · right
        simp only [List.map_cons]
        exact List.mem_cons_of_mem _ (List.mem_map_of_mem Prod.fst hmem)
    · rw [mapIncrement, if_neg hk] at hkv
      rcases List.mem_cons.mp hkv with rfl | hmem
      · right
        simp only [List.map_cons]
        exact List.mem_cons_self _ _
      · rcases ih kv hmem with h | h
        · left; exact h
        · right
          simp only [List.map_cons]
          exact List.mem_cons_of_mem _ h

/-- Folding the consumer over a list of events adds the list length to the
total count. -/
theorem consumeEvents_foldl_sum :
    ∀ (l : List String) (t : List (String × Nat)),
      ((l.foldl mapIncrement t).map Prod.snd).sum = (t.map Prod.snd).sum + l.length := by
  intro l
  induction l with
  | nil => intro t; simp
  | cons e rest ih =>
    intro t
    simp only [List.foldl_cons, List.length_cons]
    rw [ih (mapIncrement t e), mapIncrement_sum]
    omega

/-- Every key of the folded table comes from the accumulator or from the
consumed events. -/
theorem consumeEvents_foldl_keys :
    ∀ (l : List String) (t : List (String × Nat)) (kv : String × Nat),
      kv ∈ l.foldl mapIncrement t → kv.1 ∈ t.map Prod.fst ∨ kv.1 ∈ l := by
  intro l
  induction l with
  | nil =>
    intro t kv h
    simp only [List.foldl_nil] at h
    exact Or.inl (List.mem_map_of_mem Prod.fst h)
  | cons e rest ih =>
    intro t kv h
    simp only [List.foldl_cons] at h
    rcases ih (mapIncrement t e) kv h with hin | hin
    · rw [List.mem_map] at hin
      obtain ⟨kv2, hkv2, hfst⟩ := hin
      rcases mapIncrement_keys t e kv2 hkv2 with h1 | h1
      · right
        rw [← hfst, h1]
        exact List.mem_cons_self _ _
      · left
        rw [← hfst]
        exact h1
    · right
      exact List.mem_cons_of_mem e hin

/-- C4: for every event count ≥ 0, non-empty outcome list and source
returning in-range indices, the frequency table built by the evaluation
has values summing exactly to the event count and keys drawn from the
outcomes. -/
theorem computeProbability_counts :
    ∀ (events : Int) (outcomes : List String) (rolls : Nat → Nat),
      0 ≤ events → outcomes ≠ [] → (∀ i, rolls i < outcomes.length) →
      (((computeProbability events outcomes rolls).map Prod.snd).sum = events.toNat ∧
        ∀ kv ∈ computeProbability events outcomes rolls, kv.1 ∈ outcomes) := by
  intro events outcomes rolls hev hout hroll
  constructor
  · unfold computeProbability consumeEvents
    rw [consumeEvents_foldl_sum]
    simp [produceEvent]
  · intro kv hkv
    unfold computeProbability consumeEvents at hkv
    rcases consumeEvents_foldl_keys _ _ kv hkv with h | h
    · simp at h
    · unfold produceEvent at h
      rw [List.mem_map] at h
      obtain ⟨i, hi, heq⟩ := h
      rw [← heq]
      have hlt := hroll i
      rw [List.getD_eq_getElem?_getD, List.getElem?_eq_getElem hlt]
      exact List.getElem_mem hlt

/-- C4 witness: 3 draws over a two-label alphabet with the constant
source 0. -/
theorem computeProbability_counts_witness :
    ((computeProbability 3 ["H", "T"] (fun _ => 0)).map Prod.snd).sum = (3 : Int).toNat ∧
    ∀ kv ∈ computeProbability 3 ["H", "T"] (fun _ => 0), kv.1 ∈ ["H", "T"] :=
  computeProbability_counts 3 ["H", "T"] (fun _ => 0) (by decide) (by decide)
    (fun i => Nat.succ_pos 1)

/-- C5 counterexample: called with the negative count -1 and a non-empty
outcome list, `GenerateProbabilisticEvent` returns an ok (empty) frequency
table, not an error. -/
theorem generateProbabilisticEvent_negative_returns_table :
    GenerateProbabilisticEvent (-1) ["heads"] (fun _ => 0) = Except.ok [] := by
  rfl

/-- C5 amended: `GenerateProbabilisticEvent` performs no event-count check
at all: for every negative count and non-empty outcome list it returns the
empty table with no error; the explicit rejection of counts below 1 (with
`ErrInvalidEvents`) lives in the generic `validate` step used by
`ValidateAndExecute`. -/
theorem generateProbabilisticEvent_no_negative_check :
    (∀ events : Int, events < 0 →
      ∀ (possibilities : List String) (rolls : Nat → Nat), possibilities ≠ [] →
        GenerateProbabilisticEvent events possibilities rolls = Except.ok []) ∧
    (∀ n : Int, n < 1 → validate n = (false, some ErrInvalidEvents)) := by
  constructor
  · intro events hev possibilities rolls hposs
    unfold GenerateProbabilisticEvent
    rw [if_neg (Nat.not_lt.mpr (List.length_pos.mpr hposs))]
    have h0 : events.toNat = 0 := Int.toNat_of_nonpos (le_of_lt hev)
    unfold computeProbability produceEvent consumeEvents
    rw [h0]
    rfl
  · intro n hn
    unfold validate
    rw [if_pos hn]

/-- C5 amended witness: count -2 with a singleton alphabet, and the
generic validation at count 0. -/
theorem generateProbabilisticEvent_no_negative_check_witness :
    GenerateProbabilisticEvent (-2) ["heads"] (fun _ => 0) = Except.ok [] ∧
    validate 0 = (false, some ErrInvalidEvents) :=
  ⟨generateProbabilisticEvent_no_negative_check.1 (-2) (by decide) ["heads"] (fun _ => 0)
      (by decide),
   generateProbabilisticEvent_no_negative_check.2 0 (by decide)⟩
